import Mathlib

/- Verification development for the pointr-ga repository: geometric-algebra
point-cloud layers (src/models/ga_models/MVFormer.py, GPD.py) and the training
loops (src/tools/training.py, src/tools/ga_training.py).

Tensors are modelled as total functions from natural-number indices to real
numbers; shapes are carried as explicit natural numbers and torch operations
become index arithmetic and Finset sums.  Fallible torch operations (shape
asserts, broadcasting checks) are modelled with Bool validity predicates and
Option results.  The Clifford algebra is the one the repository builds from
3-d point clouds: metric [1,1,1], eight basis blades ordered by grade. -/

noncomputable section

open Finset

/-- Rank-3 real tensor, indexed [batch, position, component]. -/
abbrev PC : Type := ℕ → ℕ → ℕ → ℝ

/-- Rank-4 real tensor. -/
abbrev T4 : Type := ℕ → ℕ → ℕ → ℕ → ℝ

/-- Modelled from the spec: the algebra engine's grade decomposition
(clifford_lib/algebra is outside src/).  In Cl(3,0) the eight basis blades
are ordered by grade as [1, e1, e2, e3, e12, e13, e23, e123]; `gradeOf d` is
the grade of blade `d`.  The per-grade subspace dimensions are [1,3,3,1]
and there are 4 subspaces, matching the counts printed by ga_training.py. -/
def gradeOf (d : ℕ) : ℕ := [0, 1, 1, 1, 2, 2, 2, 3].getD d 0

/-- Modelled from the spec: the generator index set of basis blade `d`
(grade ordering above) as a bitmask over the three generators e1, e2, e3. -/
def bladeMask (d : ℕ) : ℕ := [0, 1, 2, 4, 3, 5, 6, 7].getD d 0

/-- Number of generator transpositions performed when multiplying the blades
with generator sets `a` and `b`: pairs (i, j) with i in a, j in b, j < i. -/
def countSwaps (a b : ℕ) : ℕ :=
  ∑ i ∈ range 3, ∑ j ∈ range 3, if j < i ∧ a.testBit i ∧ b.testBit j then 1 else 0

/-- Modelled from the spec: the algebra engine's "basis blade multiplication
tables (Cayley tensor)" for the metric [1,1,1]: `cayley l m n` is the
coefficient of blade `m` in the geometric product of blades `l` and `n`. -/
def cayley (l m n : ℕ) : ℝ :=
  if bladeMask l ^^^ bladeMask n = bladeMask m then
    (-1 : ℝ) ^ countSwaps (bladeMask l) (bladeMask n)
  else 0

/-- Logistic sigmoid, as torch.sigmoid in NormalizationLayer.forward. -/
def sigmoid (t : ℝ) : ℝ := 1 / (1 + Real.exp (-t))

/-- Modelled from the spec: the algebra engine's "multivector embedding of raw
coordinate vectors" (algebra.embed_grade(x, 1) in SelfAttentionGA.forward and
GaTrainer.train): the three coordinates are placed in the grade-1 slots
1, 2, 3 of the 8-dimensional multivector and all other slots are zero. -/
def embedG1 (x : PC) : PC := fun b p d =>
  if d = 1 ∨ d = 2 ∨ d = 3 then x b p (d - 1) else 0

/-- Modelled from the spec: the algebra engine's "norm computation per grade"
(algebra.norms, clifford_lib is outside src/), for a rank-3 input
[batch, seq, 8]: Euclidean norm of the grade-k component of the multivector
at [b, s]. -/
def norms3 (x : PC) (b s k : ℕ) : ℝ :=
  Real.sqrt (∑ d ∈ (range 8).filter (fun d => gradeOf d = k), (x b s d) ^ 2)

/-- Modelled from the spec: algebra.norms for a rank-4 input
[batch, seq, features, 8]. -/
def norms4 (x : T4) (b s f k : ℕ) : ℝ :=
  Real.sqrt (∑ d ∈ (range 8).filter (fun d => gradeOf d = k), (x b s f d) ^ 2)

/-- Torch broadcasting compatibility of two sizes paired in the same axis
position: equal, or one of them is 1. -/
def broadcastOK (a b : ℕ) : Bool := (a == b) || (a == 1) || (b == 1)

/-- Validity of NormalizationLayer.forward (MVFormer.py lines 28-45) on a
rank-3 input [B, S, D]: the assert `input.shape[2] == self.in_features`,
the algebra's multivector dimension (algebra.norms needs D = 8), and the
broadcast of the sliced parameter `s_a[:S]` (first dimension min S 3000,
since `self.a` is created with 3000 rows) against the seq axis of the
per-grade norm tensor [B, S, 4]. -/
def normValid3 (features S D : ℕ) : Bool :=
  (D == features) && (D == 8) && broadcastOK (min S 3000) S

/-- Elementwise output of NormalizationLayer.forward (MVFormer.py lines
28-45) on a rank-3 input: norms are concatenated per grade, scaled by
`sigmoid(a)[:S] * (norms - 1) + 1`, expanded back over blades by
repeat_interleave (blade d uses its grade's norm), and the input is divided
by the result plus 1e-6.  The parameter row index is the broadcast partner
of position s, i.e. `s % min S 3000` (equal to s whenever the slice length
matches the seq axis). -/
def normForward3Out (a : ℕ → ℕ → ℝ) (S : ℕ) (x : PC) : PC := fun b s d =>
  x b s d /
    (sigmoid (a (s % min S 3000) (gradeOf d)) * (norms3 x b s (gradeOf d) - 1) + 1
      + (1 / 1000000 : ℝ))

/-- NormalizationLayer.forward on a rank-3 input, with the shape checks. -/
def normForward3Opt (features : ℕ) (a : ℕ → ℕ → ℝ) (B S D : ℕ) (x : PC) :
    Option PC :=
  if normValid3 features S D then some (normForward3Out a S x) else none

/-- Validity of NormalizationLayer.forward on a rank-4 input [B, S, F, D]:
the assert `input.shape[2] == self.in_features` reads the features axis, and
the sliced parameter `s_a[:S]` of shape [min S 3000, 4] broadcasts against
the per-grade norm tensor [B, S, F, 4], pairing its first dimension with the
features axis F (the second-to-last axis), not the seq axis.  The pairing
accepts equal sizes or a size-1 side on either operand; when F = 1 the
features axis itself broadcast-expands to min S 3000. -/
def normValid4 (features S F D : ℕ) : Bool :=
  (F == features) && (D == 8) && broadcastOK (min S 3000) F

/-- Elementwise output of NormalizationLayer.forward on a rank-4 input.  By
the broadcasting in `normValid4`, the learned row pairs with the features
axis: at output position [b, s, f, d] the row index is `f % min S 3000` and
the input feature index is `f % F`.  The two mod-indexings realise every
accepted broadcast case: with equal sizes both reduce to f itself, a size-1
parameter slice repeats its row 0, and a size-1 features axis reuses input
feature 0 across the broadcast-expanded output axis. -/
def normForward4Out (a : ℕ → ℕ → ℝ) (S F : ℕ) (x : T4) : T4 := fun b s f d =>
  x b s (f % F) d /
    (sigmoid (a (f % min S 3000) (gradeOf d)) *
      (norms4 x b s (f % F) (gradeOf d) - 1) + 1 + (1 / 1000000 : ℝ))

/-- NormalizationLayer.forward on a rank-4 input, with the shape checks. -/
def normForward4Opt (features : ℕ) (a : ℕ → ℕ → ℝ) (B S F D : ℕ) (x : T4) :
    Option T4 :=
  if normValid4 features S F D then some (normForward4Out a S F x) else none

/-- Modelled from the spec, following the wording of claim C2 (for the
refinement comparison only): the same divisor formula but with the learned
factor indexed by the sequence position p, `s = sigmoid (a p k)`. -/
def normForward4Claimed (a : ℕ → ℕ → ℝ) (x : T4) : T4 := fun b p f d =>
  x b p f d /
    (sigmoid (a p (gradeOf d)) * (norms4 x b p f (gradeOf d) - 1) + 1
      + (1 / 1000000 : ℝ))

/-- Modelled from the spec: the "multivector linear layer: a learnable linear
map that acts independently per algebra subspace (grade)"
(clifford_modules/MVLinear.py is outside src/).  The weight is indexed by
output feature, input feature and grade; the layer contracts the feature
axis (second-to-last) of a [B, inF, 8] input, leaving the blade axis alone
and using the grade-(gradeOf d) weight slice for blade d. -/
def mvLinearOut (w : ℕ → ℕ → ℕ → ℝ) (inF : ℕ) (x : PC) : PC := fun b o d =>
  ∑ i ∈ range inF, w o i (gradeOf d) * x b i d

/-- The tensor `q.unsqueeze(2)` of FullyConnectedSteerableGeometricProductLayer
.forward, read through the later broadcasting over the inserted size-1 axis:
element [b, i, j, l] is q[b, i, l] for every j. -/
def unsq2 (q : PC) : T4 := fun b i _ l => q b i l

/-- The tensor `k.unsqueeze(1)`, read through the later broadcasting over the
inserted size-1 axis: element [b, i, j, n] is k[b, j, n] for every i. -/
def unsq1 (k : PC) : T4 := fun b _ j n => k b j n

/-- Modelled from the spec: fast_einsum (utils/ga_utils.py is outside src/)
computes `torch.einsum("...i,ijk,...k->...j", q, cayley, k)`, per the
reference line kept in the profiling block of MVFormer.py (lines 99-113).
Specialised to the rank-4 broadcast operands used in the layer: the batch
dimensions "..." are [b, i, j] and the contracted axes have size 8. -/
def fastEinsum (q : T4) (c : ℕ → ℕ → ℕ → ℝ) (k : T4) : T4 := fun b i j m =>
  ∑ l ∈ range 8, ∑ n ∈ range 8, q b i j l * c l m n * k b i j n

/-- FullyConnectedSteerableGeometricProductLayer.forward (MVFormer.py lines
66-116) on an input of shape [B, S, D].  The projections are the hard-coded
`MVLinear(algebra, 2048, 2048)` of the constructor (lines 62-63), so the
MVLinear contraction requires S = 2048 (and D = 8); the projected tensors of
shape [B, 2048, 8] then go through the NormalizationLayer built with the
`features` constructor argument, are unsqueezed, made contiguous and cast to
half precision (identities in this real-valued model; their dtype effect is
modelled separately), and contracted through the Cayley tensor by
fast_einsum inside the autocast region. -/
def fcsgpForwardOpt (features : ℕ) (wq wk : ℕ → ℕ → ℕ → ℝ) (a : ℕ → ℕ → ℝ)
    (B S D : ℕ) (x : PC) : Option T4 :=
  if S = 2048 ∧ D = 8 then
    match normForward3Opt features a B 2048 8 (mvLinearOut wq 2048 x),
        normForward3Opt features a B 2048 8 (mvLinearOut wk 2048 x) with
    | some qn, some kn => some (fastEinsum (unsq2 qn) cayley (unsq1 kn))
    | _, _ => none
  else none

/-- The value projection of SelfAttentionGA: `nn.Linear(2 ** algebra.dim, 112)`
applied to the embedded multivectors, so `wv` is a 112 x 8 weight and `bv`
the bias. -/
def vProj (wv : ℕ → ℕ → ℝ) (bv : ℕ → ℝ) (xe : PC) : PC := fun b p j =>
  (∑ d ∈ range 8, wv j d * xe b p d) + bv j

/-- The attention-score projection of GeometricProductAttention:
`nn.Linear(embed_dim, 1)` applied to the geometric-product tensor followed by
`.squeeze(-1)`; under the layer's validity embed_dim = 8.  (The dropout
member of the layer is never used in its forward.) -/
def attScores (attW : ℕ → ℝ) (attB : ℝ) (gp : T4) : ℕ → ℕ → ℕ → ℝ :=
  fun b i j => (∑ m ∈ range 8, attW m * gp b i j m) + attB

/-- Row-wise softmax over the last axis of length S, as
`torch.softmax(mv_attn, dim=-1)`. -/
def softmaxRow (S : ℕ) (sc : ℕ → ℝ) (k : ℕ) : ℝ :=
  Real.exp (sc k) / ∑ j ∈ range S, Real.exp (sc j)

/-- SelfAttentionGA.forward (MVFormer.py lines 162-177): the raw coordinates
are embedded as grade-1 multivectors, projected to values, scored by the
geometric-product attention, softmax-normalised, and combined by
`torch.einsum("bqk,bvd->bqd", attn_probs, v)`, which sums over both the
attention index k and the value position index separately. -/
def saForwardOpt (embedDim : ℕ) (wq wk : ℕ → ℕ → ℕ → ℝ) (a : ℕ → ℕ → ℝ)
    (attW : ℕ → ℝ) (attB : ℝ) (wv : ℕ → ℕ → ℝ) (bv : ℕ → ℝ)
    (B S : ℕ) (x : PC) : Option PC :=
  match fcsgpForwardOpt embedDim wq wk a B S 8 (embedG1 x) with
  | some gp => some (fun b q d =>
      ∑ k ∈ range S, ∑ p ∈ range S,
        softmaxRow S (attScores attW attB gp b q) k * vProj wv bv (embedG1 x) b p d)
  | none => none

/-- Shape behaviour of MVLinear on a rank-3 input (modelled from the spec,
clifford_modules is outside src/): [b, inF, 8] becomes [b, outF, 8]. -/
def mvLinearShape (inF outF : ℕ) : List ℕ → Option (List ℕ)
  | [b, f, d] => if f = inF ∧ d = 8 then some [b, outF, d] else none
  | _ => none

/-- Modelled from the spec: MVReLU acts elementwise per feature, preserving
the [b, features, 8] shape (clifford_modules/mvrelu.py is outside src/). -/
def mvReLUShape (features : ℕ) : List ℕ → Option (List ℕ)
  | [b, f, d] => if f = features ∧ d = 8 then some [b, f, d] else none
  | _ => none

/-- Modelled from the spec: SteerableGeometricProductLayer maps multivector
features to multivector features, preserving the [b, features, 8] shape
(clifford_modules/gp.py is outside src/). -/
def sgpShape (features : ℕ) : List ℕ → Option (List ℕ)
  | [b, f, d] => if f = features ∧ d = 8 then some [b, f, d] else none
  | _ => none

/-- Modelled from the spec: MVLayerNorm rescales per feature, preserving the
[b, features, 8] shape (clifford_modules/mvlayernorm.py is outside src/). -/
def mvLayerNormShape (features : ℕ) : List ℕ → Option (List ℕ)
  | [b, f, d] => if f = features ∧ d = 8 then some [b, f, d] else none
  | _ => none

/-- Shape behaviour of CGEBlock (GPD.py lines 11-25): MVLinear, MVReLU,
SteerableGeometricProductLayer, MVLayerNorm in sequence. -/
def cgeBlockShape (inF outF : ℕ) (s : List ℕ) : Option (List ℕ) :=
  (mvLinearShape inF outF s).bind fun s1 =>
    (mvReLUShape outF s1).bind fun s2 =>
      (sgpShape outF s2).bind (mvLayerNormShape outF)

/-- Shape behaviour of CGEMLP (GPD.py lines 28-46) with the default
n_layers = 2: a block inF to hidF, then a block hidF to outF. -/
def cgeMLPShape (inF hidF outF : ℕ) (s : List ℕ) : Option (List ℕ) :=
  (cgeBlockShape inF hidF s).bind (cgeBlockShape hidF outF)

/-- Shape behaviour of `h.reshape(h.size(0), -1)` in InvariantCGENN.forward:
flatten all but the first dimension. -/
def flattenShape : List ℕ → Option (List ℕ)
  | b :: rest => some [b, rest.prod]
  | [] => none

/-- Shape behaviour of nn.Linear(inD, outD) on a rank-2 input. -/
def linearShape (inD outD : ℕ) : List ℕ → Option (List ℕ)
  | [b, d] => if d = inD then some [b, outD] else none
  | _ => none

/-- Shape behaviour of `x.reshape(-1, f, d)`: the element count must be a
positive multiple of f * d and the leading size is inferred. -/
def reshapeNeg1 (f d : ℕ) (s : List ℕ) : Option (List ℕ) :=
  if f * d ≠ 0 ∧ s.prod % (f * d) = 0 then some [s.prod / (f * d), f, d] else none

/-- Shape behaviour of InvariantCGENN.forward (GPD.py lines 69-87):
CGEMLP(in_features, hidden, hidden), flatten, the upsampling
nn.Linear(hidden * 2^3, in_features * algebra.dim) with algebra.dim = 3,
and the final `x.reshape(-1, self.in_features, self.algebra.dim)`. -/
def invariantCGENNShape (inF hidF : ℕ) (s : List ℕ) : Option (List ℕ) :=
  (cgeMLPShape inF hidF hidF s).bind fun h =>
    (flattenShape h).bind fun hf =>
      (linearShape (hidF * 8) (inF * 3) hf).bind (reshapeNeg1 inF 3)

/-- Per-batch computation of GaTrainer.train (src/tools/ga_training.py lines
57-79): the backbone runs on the incomplete cloud and on the complete cloud;
the targets are `ret_t[-1]` (the backbone's final output on the complete
cloud); the backbone's final output on the incomplete cloud is embedded as
grade-1 multivectors, passed through the GA model, and the loss is taken
between the model output and that target.  `getLast?` models the Python
`[-1]` indexing, none being the IndexError on an empty output list. -/
def gaTrainStep (bb : PC → List PC) (model : PC → PC) (lossfn : PC → PC → ℝ)
    (pIn cIn : PC) : Option ℝ :=
  match (bb pIn).getLast?, (bb cIn).getLast? with
  | some raw, some tgt => some (lossfn (model (embedG1 raw)) tgt)
  | _, _ => none

/-- Modelled from the spec, following the wording of claim C4 (for the
refinement comparison only): the same per-batch computation but with the loss
taken against the complete cloud from the dataset itself. -/
def gaTrainStepClaimed (bb : PC → List PC) (model : PC → PC)
    (lossfn : PC → PC → ℝ) (pIn cIn : PC) : Option ℝ :=
  match (bb pIn).getLast? with
  | some raw => some (lossfn (model (embedG1 raw)) cIn)
  | none => none

/-- Per-batch loss computation of Trainer.train (src/tools/training.py lines
91-122): the model runs on the incomplete cloud and the loss is
`loss_fn(output[-1], complete)` against the dataset's complete cloud. -/
def trainerStep (model : PC → List PC) (lossfn : PC → PC → ℝ)
    (pIn cIn : PC) : Option ℝ :=
  match (model pIn).getLast? with
  | some out => some (lossfn out cIn)
  | none => none

/-- The epoch-loss accumulation of Trainer.train (training.py lines 92-168)
and GaTrainer.train (ga_training.py lines 57-79): `epoch_loss += loss.item()`
per batch, and after the loop `epoch_loss / (step + 1)` where step is the
enumerate index of the last processed batch (carried as `lastStep`; none
models the Python NameError when the loop body never ran). -/
def epochLossGo (acc : ℝ) (lastStep : Option ℕ) (idx : ℕ) : List ℝ → Option ℝ
  | [] =>
    match lastStep with
    | none => none
    | some st => some (acc / ((st : ℝ) + 1))
  | l :: rest => epochLossGo (acc + l) (some idx) (idx + 1) rest

/-- Reported epoch loss for the list of per-batch loss values of one epoch. -/
def epochMeanLoss (ls : List ℝ) : Option ℝ := epochLossGo 0 none 0 ls

/-- A checkpoint as assembled by Trainer.train (training.py lines 136-142 and
172-177): the current epoch, the model state_dict and the optimizer
state_dict (the two states are abstract, updated by torch internals). -/
structure Ckpt (σ τ : Type) where
  epoch : ℕ
  model : σ
  optim : τ

/-- Observable save events of Trainer.train: a progressive checkpoint saved
at a batch step, or the final checkpoint together with the per-epoch loss
history dumped to train_losses.json. -/
inductive TrEvent (σ τ : Type) where
  | prog : ℕ → Ckpt σ τ → TrEvent σ τ
  | finSave : Ckpt σ τ → List (List ℝ) → TrEvent σ τ

/-- The progressive-save condition of training.py lines 136-138:
`step > 0 and step % self.save_step == 0 and self.progressive and not
self.debug`. -/
def saveCond (progressive debug : Bool) (saveStep step : ℕ) : Bool :=
  decide (0 < step) && decide (step % saveStep = 0) && progressive && !debug

/-- The inner batch loop of Trainer.train for one epoch: each batch runs
backward and optimizer.step (abstract updates uM, uO), records its loss in
the epoch's trend list, saves a progressive checkpoint when `saveCond`
holds, and in debug mode breaks after the first batch.  Returns the final
model and optimizer states, the save events, and the recorded losses. -/
def runBatches {σ τ : Type} (prog dbg : Bool) (ss : ℕ) (uM : σ → σ) (uO : τ → τ)
    (epoch : ℕ) : List ℝ → ℕ → σ → τ → σ × τ × List (TrEvent σ τ) × List ℝ
  | [], _, m, o => (m, o, [], [])
  | l :: rest, step, m, o =>
    let m' := uM m
    let o' := uO o
    let evs := if saveCond prog dbg ss step then
        [TrEvent.prog step (Ckpt.mk epoch m' o')] else []
    if dbg then (m', o', evs, [l])
    else
      let r := runBatches prog dbg ss uM uO epoch rest (step + 1) m' o'
      (r.1, r.2.1, evs ++ r.2.2.1, l :: r.2.2.2)

/-- The epoch loop of Trainer.train: runs the batch loop per epoch, collects
the loss trend per epoch, breaks after one epoch in debug mode, and reports
the last epoch index reached (none when there was no epoch, modelling the
NameError of the final checkpoint in that case). -/
def runEpochs {σ τ : Type} (prog dbg : Bool) (ss : ℕ) (uM : σ → σ) (uO : τ → τ) :
    List (List ℝ) → ℕ → σ → τ →
      σ × τ × List (TrEvent σ τ) × List (List ℝ) × Option ℕ
  | [], _, m, o => (m, o, [], [], none)
  | ls :: rest, ep, m, o =>
    let rb := runBatches prog dbg ss uM uO ep ls 0 m o
    if dbg then (rb.1, rb.2.1, rb.2.2.1, [rb.2.2.2], some ep)
    else
      let re := runEpochs prog dbg ss uM uO rest (ep + 1) rb.1 rb.2.1
      (re.1, re.2.1, rb.2.2.1 ++ re.2.2.1, rb.2.2.2 :: re.2.2.2.1,
        some (re.2.2.2.2.getD ep))

/-- Trainer.train (training.py lines 88-186) as its sequence of save events:
the progressive saves from the epoch loop followed by the final checkpoint
and the loss-history dump, which are written unconditionally after the
loop. -/
def trainRun {σ τ : Type} (prog dbg : Bool) (ss : ℕ) (uM : σ → σ) (uO : τ → τ)
    (losses : List (List ℝ)) (m : σ) (o : τ) : Option (List (TrEvent σ τ)) :=
  let r := runEpochs prog dbg ss uM uO losses 0 m o
  match r.2.2.2.2 with
  | none => none
  | some le => some (r.2.2.1 ++ [TrEvent.finSave (Ckpt.mk le r.1 r.2.1) r.2.2.2.1])

/-- Torch dtypes relevant to the mixed-precision path. -/
inductive DType where
  | f32 : DType
  | f16 : DType
deriving DecidableEq

/-- Metadata of a torch tensor: dtype and whether it is contiguous. -/
structure TMeta where
  dtype : DType
  contig : Bool
deriving DecidableEq

/-- `t.contiguous()`: same dtype, contiguous memory. -/
def contiguousT (t : TMeta) : TMeta := TMeta.mk t.dtype true

/-- `t.half()`: cast to float16, layout unchanged. -/
def halfT (t : TMeta) : TMeta := TMeta.mk DType.f16 t.contig

/-- `t.unsqueeze(i)`: dtype and contiguity unchanged. -/
def unsqueezeT (t : TMeta) : TMeta := t

/-- MVLinear produces a fresh tensor of the same dtype, contiguous. -/
def mvLinearT (t : TMeta) : TMeta := TMeta.mk t.dtype true

/-- NormalizationLayer produces a fresh tensor of the same dtype,
contiguous. -/
def normT (t : TMeta) : TMeta := TMeta.mk t.dtype true

/-- The operands and context of the einsum contraction. -/
structure EinsumCtx where
  qMeta : TMeta
  kMeta : TMeta
  cMeta : TMeta
  autocast : Bool
deriving DecidableEq

/-- Metadata trace of FullyConnectedSteerableGeometricProductLayer.forward
(MVFormer.py lines 71-101), following the source order: projection,
normalization, unsqueeze, `.contiguous()` on q, k and the Cayley tensor,
`.half()` on all three, then fast_einsum inside the
`torch.amp.autocast('cuda')` region. -/
def fcsgpEinsumCtx (inMeta cMeta0 : TMeta) : EinsumCtx :=
  let q0 := mvLinearT inMeta
  let k0 := mvLinearT inMeta
  let q1 := normT q0
  let k1 := normT k0
  let q2 := unsqueezeT q1
  let k2 := unsqueezeT k1
  let q3 := contiguousT q2
  let k3 := contiguousT k2
  let c1 := contiguousT cMeta0
  let q4 := halfT q3
  let k4 := halfT k3
  let c2 := halfT c1
  EinsumCtx.mk q4 k4 c2 true

/-- Helper: if NormalizationLayer.forward (rank 3) succeeds, the result is the
elementwise formula. -/
lemma normForward3Opt_eq_some {features : ℕ} {a : ℕ → ℕ → ℝ} {B S D : ℕ}
    {x : PC} {g : PC} (h : normForward3Opt features a B S D x = some g) :
    g = normForward3Out a S x := by
  unfold normForward3Opt at h
  split at h
  · exact (Option.some.inj h).symm
  · exact absurd h (by simp)

/-- Helper: the success condition of the geometric-product layer: the
hard-coded projections force S = 2048 and D = 8, and its normalization
layer's assert forces features = 8. -/
lemma fcsgp_isSome_iff (features : ℕ) (wq wk : ℕ → ℕ → ℕ → ℝ)
    (a : ℕ → ℕ → ℝ) (B S D : ℕ) (x : PC) :
    (fcsgpForwardOpt features wq wk a B S D x).isSome = true ↔
      (S = 2048 ∧ D = 8 ∧ features = 8) := by
  unfold fcsgpForwardOpt
  by_cases hg : S = 2048 ∧ D = 8
  · rw [if_pos hg]
    by_cases hv : normValid3 features 2048 8 = true
    · have hv' : features = 8 := by
        have := hv
        simp [normValid3, broadcastOK] at this
        omega
      subst hv'
      simp [normForward3Opt, hv, hg.1, hg.2]
    · have hv' : features ≠ 8 := by
        intro hc
        exact hv (by simp [normValid3, broadcastOK, hc])
      simp [normForward3Opt, hv, hv']
  · rw [if_neg hg]
    simp only [Option.isSome_none, Bool.false_eq_true, false_iff]
    intro hc
    exact hg ⟨hc.1, hc.2.1⟩

/-- Helper: when the geometric-product layer succeeds, its result is the
Cayley contraction of the projected and normalized inputs. -/
lemma fcsgp_eq_some (features : ℕ) (wq wk : ℕ → ℕ → ℕ → ℝ) (a : ℕ → ℕ → ℝ)
    (B S D : ℕ) (x : PC)
    (h : (fcsgpForwardOpt features wq wk a B S D x).isSome) :
    fcsgpForwardOpt features wq wk a B S D x =
      some (fastEinsum (unsq2 (normForward3Out a 2048 (mvLinearOut wq 2048 x)))
        cayley (unsq1 (normForward3Out a 2048 (mvLinearOut wk 2048 x)))) := by
  by_cases hg : S = 2048 ∧ D = 8
  · unfold fcsgpForwardOpt at h ⊢
    rw [if_pos hg] at h ⊢
    cases hq : normForward3Opt features a B 2048 8 (mvLinearOut wq 2048 x) with
    | none =>
      rw [hq] at h
      simp at h
    | some qn =>
      cases hk : normForward3Opt features a B 2048 8 (mvLinearOut wk 2048 x) with
      | none =>
        rw [hq, hk] at h
        simp at h
      | some kn =>
        have e1 := normForward3Opt_eq_some hq
        have e2 := normForward3Opt_eq_some hk
        subst e1
        subst e2
        rfl
  · exfalso
    unfold fcsgpForwardOpt at h
    rw [if_neg hg] at h
    simp at h

/-- Claim C1: for every accepted input, the forward pass of
FullyConnectedSteerableGeometricProductLayer computes the pairwise
interaction of every ordered pair of positions (i, j) by contracting the
projected-and-normalized query multivector at position i and key multivector
at position j through the algebra's Cayley tensor:
output[b,i,j,m] = sum over l, n of q[b,i,l] * cayley[l,m,n] * k[b,j,n]. -/
theorem c1_gp_layer_cayley_contraction (features : ℕ) (wq wk : ℕ → ℕ → ℕ → ℝ)
    (a : ℕ → ℕ → ℝ) (B S D : ℕ) (x : PC)
    (h : (fcsgpForwardOpt features wq wk a B S D x).isSome) (b i j m : ℕ) :
    (fcsgpForwardOpt features wq wk a B S D x).get h b i j m =
      ∑ l ∈ range 8, ∑ n ∈ range 8,
        normForward3Out a 2048 (mvLinearOut wq 2048 x) b i l * cayley l m n *
          normForward3Out a 2048 (mvLinearOut wk 2048 x) b j n := by
  rw [Option.get_of_mem h (Option.mem_def.mpr (fcsgp_eq_some features wq wk a B S D x h))]
  rfl

/-- Witness for C1 at a concrete accepted input. -/
theorem c1_witness :
    (fcsgpForwardOpt 8 (fun _ _ _ => 0) (fun _ _ _ => 0) (fun _ _ => 0) 1 2048 8
        (fun _ _ _ => 0)).get (by decide) 0 0 0 0 =
      ∑ l ∈ range 8, ∑ n ∈ range 8,
        normForward3Out (fun _ _ => 0) 2048 (mvLinearOut (fun _ _ _ => 0) 2048
            (fun _ _ _ => 0)) 0 0 l * cayley l 0 n *
          normForward3Out (fun _ _ => 0) 2048 (mvLinearOut (fun _ _ _ => 0) 2048
            (fun _ _ _ => 0)) 0 0 n :=
  c1_gp_layer_cayley_contraction 8 (fun _ _ _ => 0) (fun _ _ _ => 0) (fun _ _ => 0)
    1 2048 8 (fun _ _ _ => 0) (by decide) 0 0 0 0

/-- Claim C9: NormalizationLayer.forward on a rank-3 input [B, S, D] succeeds
exactly when the asserted third dimension matches the configured feature
count (and the algebra's multivector dimension 8) and the sequence length is
at most 3000, the row count of the learned scale parameter. -/
theorem c9_normalization_domain (features : ℕ) (a : ℕ → ℕ → ℝ) (B S D : ℕ)
    (x : PC) :
    (normForward3Opt features a B S D x).isSome = true ↔
      (D = features ∧ D = 8 ∧ S ≤ 3000) := by
  unfold normForward3Opt
  by_cases hv : normValid3 features S D = true
  · simp only [hv, if_true, Option.isSome_some, true_iff]
    simp [normValid3, broadcastOK] at hv
    omega
  · simp only [hv, if_false, Option.isSome_none, Bool.false_eq_true, false_iff]
    intro hc
    apply hv
    simp [normValid3, broadcastOK]
    omega

/-- Claim C10: the geometric-product layer's projections are hard-coded as
MVLinear(algebra, 2048, 2048), so for every value of the features
constructor argument the forward pass rejects any input whose sequence
dimension differs from 2048. -/
theorem c10_hardcoded_projections (features : ℕ) (wq wk : ℕ → ℕ → ℕ → ℝ)
    (a : ℕ → ℕ → ℝ) (B S D : ℕ) (x : PC) (hS : S ≠ 2048) :
    fcsgpForwardOpt features wq wk a B S D x = none := by
  unfold fcsgpForwardOpt
  rw [if_neg]
  intro hc
  exact hS hc.1

/-- Witness for C10 at a concrete rejected input (seq length 5, features 7). -/
theorem c10_witness :
    fcsgpForwardOpt 7 (fun _ _ _ => 0) (fun _ _ _ => 0) (fun _ _ => 0) 1 5 8
      (fun _ _ _ => 0) = none :=
  c10_hardcoded_projections 7 (fun _ _ _ => 0) (fun _ _ _ => 0) (fun _ _ => 0)
    1 5 8 (fun _ _ _ => 0) (by decide)

/-- Claim C8: in the geometric-product forward pass the query, key and Cayley
tensors are contiguous and in half precision when the einsum contraction
runs, and the contraction executes inside the torch.amp.autocast('cuda')
region. -/
theorem c8_mixed_precision_einsum (inMeta cMeta0 : TMeta) :
    (fcsgpEinsumCtx inMeta cMeta0).qMeta.dtype = DType.f16 ∧
    (fcsgpEinsumCtx inMeta cMeta0).qMeta.contig = true ∧
    (fcsgpEinsumCtx inMeta cMeta0).kMeta.dtype = DType.f16 ∧
    (fcsgpEinsumCtx inMeta cMeta0).kMeta.contig = true ∧
    (fcsgpEinsumCtx inMeta cMeta0).cMeta.dtype = DType.f16 ∧
    (fcsgpEinsumCtx inMeta cMeta0).cMeta.contig = true ∧
    (fcsgpEinsumCtx inMeta cMeta0).autocast = true :=
  ⟨rfl, rfl, rfl, rfl, rfl, rfl, rfl⟩

/-- Helper: the epoch-loss accumulator divides the running sum by the last
enumerate index plus one. -/
lemma epochLossGo_spec (ls : List ℝ) (hne : ls ≠ []) :
    ∀ (acc : ℝ) (lastStep : Option ℕ) (idx : ℕ),
      epochLossGo acc lastStep idx ls = some ((acc + ls.sum) / ((idx : ℝ) + ls.length)) := by
  induction ls with
  | nil => exact absurd rfl hne
  | cons l rest ih =>
    intro acc lastStep idx
    rw [epochLossGo]
    by_cases hr : rest = []
    · subst hr
      rw [epochLossGo]
      simp only [List.sum_cons, List.sum_nil, List.length_cons, List.length_nil]
      push_cast
      ring_nf
    · rw [ih hr]
      simp only [List.sum_cons, List.length_cons]
      push_cast
      ring_nf

/-- Claim C6: the reported epoch loss is the arithmetic mean of the epoch's
per-batch loss.item() values: their sum divided by the number of batches
processed. -/
theorem c6_epoch_loss_mean (ls : List ℝ) (hne : ls ≠ []) :
    epochMeanLoss ls = some (ls.sum / ls.length) := by
  unfold epochMeanLoss
  rw [epochLossGo_spec ls hne 0 none 0]
  norm_num

/-- Witness for C6 at a concrete three-batch epoch. -/
theorem c6_witness :
    epochMeanLoss [1, 2, 3] =
      some (List.sum [(1 : ℝ), 2, 3] / (List.length [(1 : ℝ), 2, 3] : ℝ)) :=
  c6_epoch_loss_mean [1, 2, 3] (by simp)

/-- Counterexample to claim C4 as stated: a concrete backbone, model and loss
under which GaTrainer.train's per-batch loss differs from a loss taken
against the dataset's complete element, because the code targets
backbone(complete)[-1]. -/
theorem c4_counterexample :
    gaTrainStep (fun t => [fun b p c => t b p c + 1]) (fun t => t)
        (fun _ u => u 0 0 0) (fun _ _ _ => 0) (fun _ _ _ => 0) ≠
      gaTrainStepClaimed (fun t => [fun b p c => t b p c + 1]) (fun t => t)
        (fun _ u => u 0 0 0) (fun _ _ _ => 0) (fun _ _ _ => 0) := by
  simp only [gaTrainStep, gaTrainStepClaimed, List.getLast?_singleton]
  intro h
  have := Option.some.inj h
  norm_num at this

/-- Claim C4 (amended): Trainer.train (src/tools/training.py) computes the
per-batch loss between the model's final output and the dataset's complete
element, while GaTrainer.train (src/tools/ga_training.py) computes it
between the GA model's output and the backbone's final output on the
complete cloud (ret_t[-1]), not the complete element itself. -/
theorem c4_loss_targets (bb : PC → List PC) (model : PC → PC)
    (lossfn : PC → PC → ℝ) (pIn cIn raw tgt : PC) (m2 : PC → List PC)
    (lf2 : PC → PC → ℝ) (p2 c2 out2 : PC)
    (h1 : (bb pIn).getLast? = some raw) (h2 : (bb cIn).getLast? = some tgt)
    (h3 : (m2 p2).getLast? = some out2) :
    gaTrainStep bb model lossfn pIn cIn = some (lossfn (model (embedG1 raw)) tgt) ∧
    trainerStep m2 lf2 p2 c2 = some (lf2 out2 c2) := by
  unfold gaTrainStep trainerStep
  rw [h1, h2, h3]
  exact ⟨rfl, rfl⟩

/-- Witness for the amended C4 at concrete inputs. -/
theorem c4_witness :
    gaTrainStep (fun t => [t]) (fun t => t) (fun _ u => u 0 0 0)
        (fun _ _ _ => 0) (fun _ _ _ => 1) =
      some ((fun (_ u : PC) => u 0 0 0) ((fun (t : PC) => t)
        (embedG1 (fun _ _ _ => 0))) (fun _ _ _ => 1)) ∧
    trainerStep (fun t => [t]) (fun _ u => u 0 0 0)
        (fun _ _ _ => 2) (fun _ _ _ => 3) =
      some ((fun (_ u : PC) => u 0 0 0) (fun _ _ _ => 2) (fun _ _ _ => 3)) :=
  c4_loss_targets (fun t => [t]) (fun t => t) (fun _ u => u 0 0 0)
    (fun _ _ _ => 0) (fun _ _ _ => 1) (fun _ _ _ => 0) (fun _ _ _ => 1)
    (fun t => [t]) (fun _ u => u 0 0 0) (fun _ _ _ => 2) (fun _ _ _ => 3)
    (fun _ _ _ => 2) rfl rfl rfl

/-- Claim C3: raw coordinates are embedded as grade-1 multivectors before the
GA model runs (GaTrainer.train applies embed_grade(_, 1) to the backbone
output before main_model), and InvariantCGENN.forward maps a valid
[b, in_features, 8] input to a [b, in_features, 3] output, whose last
dimension is the algebra dimension 3. -/
theorem c3_pipeline_shapes (inF hidF b : ℕ) (hpos : 0 < inF) :
    invariantCGENNShape inF hidF [b, inF, 8] = some [b, inF, 3] ∧
    ∀ (bb : PC → List PC) (model : PC → PC) (lossfn : PC → PC → ℝ)
      (pIn cIn raw tgt : PC),
      (bb pIn).getLast? = some raw → (bb cIn).getLast? = some tgt →
      gaTrainStep bb model lossfn pIn cIn = some (lossfn (model (embedG1 raw)) tgt) := by
  constructor
  · have h3 : inF * 3 ≠ 0 := by omega
    simp [invariantCGENNShape, cgeMLPShape, cgeBlockShape, mvLinearShape,
      mvReLUShape, sgpShape, mvLayerNormShape, flattenShape, linearShape,
      reshapeNeg1, h3, Nat.mul_mod_left, Nat.mul_div_cancel, Nat.pos_of_ne_zero h3]
  · intro bb model lossfn pIn cIn raw tgt h1 h2
    unfold gaTrainStep
    rw [h1, h2]

/-- Witness for C3 at concrete sizes. -/
theorem c3_witness :
    invariantCGENNShape 4 2 [1, 4, 8] = some [1, 4, 3] :=
  (c3_pipeline_shapes 4 2 1 (by decide)).1

/-- Helper: each softmax row sums to one over a nonempty range. -/
lemma softmaxRow_sum (S : ℕ) (hS : 0 < S) (sc : ℕ → ℝ) :
    ∑ k ∈ range S, softmaxRow S sc k = 1 := by
  unfold softmaxRow
  rw [← Finset.sum_div]
  apply div_self
  have hpos : 0 < ∑ j ∈ range S, Real.exp (sc j) :=
    Finset.sum_pos (fun j _ => Real.exp_pos (sc j))
      (Finset.nonempty_range_iff.mpr (by omega))
  exact ne_of_gt hpos

/-- Claim C5: the output of SelfAttentionGA.forward does not depend on the
attention scores: since every softmax row sums to one and the einsum
"bqk,bvd->bqd" contracts the attention index and the value index
separately, each output entry [b, q, d] is the plain sum over all positions
of v_proj(embed_grade(x, 1))[b, _, d], the same at every query position. -/
theorem c5_attention_ignored (embedDim : ℕ) (wq wk : ℕ → ℕ → ℕ → ℝ)
    (a : ℕ → ℕ → ℝ) (attW : ℕ → ℝ) (attB : ℝ) (wv : ℕ → ℕ → ℝ) (bv : ℕ → ℝ)
    (B S : ℕ) (x : PC)
    (h : (saForwardOpt embedDim wq wk a attW attB wv bv B S x).isSome)
    (b q d : ℕ) :
    (saForwardOpt embedDim wq wk a attW attB wv bv B S x).get h b q d =
      ∑ p ∈ range S, vProj wv bv (embedG1 x) b p d := by
  cases hgp : fcsgpForwardOpt embedDim wq wk a B S 8 (embedG1 x) with
  | none =>
    exfalso
    unfold saForwardOpt at h
    rw [hgp] at h
    simp at h
  | some gp =>
    have hS : 0 < S := by
      have hv := (fcsgp_isSome_iff embedDim wq wk a B S 8 (embedG1 x)).mp
        (by rw [hgp]; rfl)
      omega
    have he : saForwardOpt embedDim wq wk a attW attB wv bv B S x =
        some (fun b q d => ∑ k ∈ range S, ∑ p ∈ range S,
          softmaxRow S (attScores attW attB gp b q) k *
            vProj wv bv (embedG1 x) b p d) := by
      unfold saForwardOpt
      rw [hgp]
    have he2 : (saForwardOpt embedDim wq wk a attW attB wv bv B S x).get h b q d =
        ∑ k ∈ range S, ∑ p ∈ range S,
          softmaxRow S (attScores attW attB gp b q) k *
            vProj wv bv (embedG1 x) b p d := by
      rw [Option.get_of_mem h (Option.mem_def.mpr he)]
    rw [he2, ← Finset.sum_mul_sum]
    rw [softmaxRow_sum S hS (attScores attW attB gp b q), one_mul]

/-- Witness for C5 at a concrete accepted input. -/
theorem c5_witness :
    (saForwardOpt 8 (fun _ _ _ => 0) (fun _ _ _ => 0) (fun _ _ => 0)
        (fun _ => 0) 0 (fun _ _ => 0) (fun _ => 0) 1 2048
        (fun _ _ _ => 0)).get (by decide) 0 0 0 =
      ∑ p ∈ range 2048, vProj (fun _ _ => 0) (fun _ => 0)
        (embedG1 (fun _ _ _ => 0)) 0 p 0 :=
  c5_attention_ignored 8 (fun _ _ _ => 0) (fun _ _ _ => 0) (fun _ _ => 0)
    (fun _ => 0) 0 (fun _ _ => 0) (fun _ => 0) 1 2048 (fun _ _ _ => 0)
    (by decide) 0 0 0

/-- Helper: the logistic sigmoid at 0 is one half. -/
lemma sigmoid_zero : sigmoid 0 = 1 / 2 := by
  unfold sigmoid
  rw [neg_zero, Real.exp_zero]
  norm_num

/-- Helper: the logistic sigmoid at 1 is not one half. -/
lemma sigmoid_one_ne_half : sigmoid 1 ≠ 1 / 2 := by
  unfold sigmoid
  intro h
  have hp : (0 : ℝ) < 1 + Real.exp (-1) := by positivity
  rw [div_eq_div_iff hp.ne' (by norm_num : (2 : ℝ) ≠ 0)] at h
  have hx : Real.exp (-1) = 1 := by linarith
  rw [Real.exp_eq_one_iff] at hx
  norm_num at hx

/-- Helper: the grade-0 norm of the concrete C2 counterexample multivector
(scalar part 2, all other blades 0) is 2. -/
lemma c2_norm_eval :
    norms4 (fun _ _ _ d => if d = 0 then 2 else 0) 0 0 1 (gradeOf 0) = 2 := by
  unfold norms4
  rw [show (range 8).filter (fun d => gradeOf d = gradeOf 0) = {0} from by decide]
  rw [Finset.sum_singleton]
  norm_num
  rw [show (4 : ℝ) = 2 ^ 2 by norm_num]
  exact Real.sqrt_sq (by norm_num)

/-- Counterexample to claim C2 as stated: on a rank-4 input with seq = 2 and
features = 2 (matching the configured feature count), the code's divisor at
position [0, 0, 1, 0] uses the learned row of the features-axis index 1,
not the sequence position 0 that the claim names, and the outputs differ. -/
theorem c2_counterexample :
    normForward4Opt 2 (fun r _ => (r : ℝ)) 1 2 2 8
        (fun _ _ _ d => if d = 0 then 2 else 0) =
      some (normForward4Out (fun r _ => (r : ℝ)) 2 2
        (fun _ _ _ d => if d = 0 then 2 else 0)) ∧
    normForward4Out (fun r _ => (r : ℝ)) 2 2
        (fun _ _ _ d => if d = 0 then 2 else 0) 0 0 1 0 ≠
      normForward4Claimed (fun r _ => (r : ℝ))
        (fun _ _ _ d => if d = 0 then 2 else 0) 0 0 1 0 := by
  constructor
  · unfold normForward4Opt
    rw [if_pos (by decide)]
  · intro h
    unfold normForward4Out normForward4Claimed at h
    norm_num at h
    rw [c2_norm_eval] at h
    norm_num at h
    rw [sigmoid_zero] at h
    have hp1 : (0 : ℝ) < sigmoid 1 + 1 + 1 / 1000000 := by
      unfold sigmoid
      positivity
    have hp2 : (0 : ℝ) < 1 / 2 + 1 + 1 / 1000000 := by norm_num
    rw [div_eq_div_iff hp1.ne' hp2.ne'] at h
    exact sigmoid_one_ne_half (by linarith)

/-- Claim C2 (amended): for every rank-4 input [B, S, F, 8] the layer accepts
(features axis matching the configured feature count, and the sliced
parameter rows broadcast-compatible with the features axis: sizes equal or
either side 1), each grade component is divided by s * (n - 1) + 1 + 1e-6
with n the per-grade norm, but the learned factor
s = sigmoid(a[f mod min(S, 3000), k]) pairs with the features-axis position
f of the output (the broadcast partner of the sliced parameter rows), not
with the sequence position; a size-1 features axis reuses input feature 0
across the broadcast-expanded axis. -/
theorem c2_normalization_divisor (features : ℕ) (a : ℕ → ℕ → ℝ)
    (B S F D : ℕ) (x : T4)
    (h : (normForward4Opt features a B S F D x).isSome) (b s f d : ℕ) :
    (normForward4Opt features a B S F D x).get h b s f d =
      x b s (f % F) d / (sigmoid (a (f % min S 3000) (gradeOf d)) *
        (Real.sqrt (∑ e ∈ (range 8).filter (fun e => gradeOf e = gradeOf d),
          (x b s (f % F) e) ^ 2) - 1) + 1 + (1 / 1000000 : ℝ)) ∧
    F = features ∧ D = 8 ∧ (min S 3000 = F ∨ min S 3000 = 1 ∨ F = 1) := by
  have hv : normValid4 features S F D = true := by
    by_contra hv
    unfold normForward4Opt at h
    rw [if_neg hv] at h
    simp at h
  have he : normForward4Opt features a B S F D x = some (normForward4Out a S F x) := by
    unfold normForward4Opt
    rw [if_pos hv]
  refine ⟨?_, ?_⟩
  · rw [Option.get_of_mem h (Option.mem_def.mpr he)]
    rfl
  · simp [normValid4, broadcastOK] at hv
    omega

/-- Witness for the amended C2 at a concrete accepted input: the validity
hypothesis is discharged by evaluation and the broadcast facts follow. -/
theorem c2_witness :
    (2 : ℕ) = 2 ∧ (8 : ℕ) = 8 ∧ (min 2 3000 = 2 ∨ min 2 3000 = 1 ∨ (2 : ℕ) = 1) :=
  (c2_normalization_divisor 2 (fun r _ => (r : ℝ)) 1 2 2 8 (fun _ _ _ _ => 0)
    (by decide) 0 0 1 0).2

/-- Helper: the progressive-save condition with saving on and debug off is
exactly step > 0 and save_step divides step. -/
lemma saveCond_iff (ss st : ℕ) :
    saveCond true false ss st = true ↔ (0 < st ∧ st % ss = 0) := by
  simp [saveCond]

/-- Helper: the batch loop records exactly the epoch's batch losses. -/
lemma runBatches_losses {σ τ : Type} (ss : ℕ) (uM : σ → σ) (uO : τ → τ)
    (ep : ℕ) (ls : List ℝ) :
    ∀ (st : ℕ) (m : σ) (o : τ),
      (runBatches true false ss uM uO ep ls st m o).2.2.2 = ls := by
  induction ls with
  | nil => intro st m o; rfl
  | cons l rest ih =>
    intro st m o
    simp only [runBatches, Bool.false_eq_true, if_false]
    rw [ih]

/-- Helper: every progressive-save event of the batch loop satisfies the save
condition, lies in the step range of the loop, and carries the epoch. -/
lemma runBatches_mem {σ τ : Type} (ss : ℕ) (uM : σ → σ) (uO : τ → τ)
    (ep : ℕ) (ls : List ℝ) :
    ∀ (st : ℕ) (m : σ) (o : τ) (st' : ℕ) (c : Ckpt σ τ),
      TrEvent.prog st' c ∈ (runBatches true false ss uM uO ep ls st m o).2.2.1 →
      0 < st' ∧ st' % ss = 0 ∧ st ≤ st' ∧ st' < st + ls.length ∧ c.epoch = ep := by
  induction ls with
  | nil => intro st m o st' c h; simp [runBatches] at h
  | cons l rest ih =>
    intro st m o st' c h
    simp only [runBatches, Bool.false_eq_true, if_false] at h
    rcases List.mem_append.mp h with h1 | h2
    · by_cases hs : saveCond true false ss st = true
      · rw [if_pos hs] at h1
        rw [List.mem_singleton] at h1
        injection h1 with h1a h1b
        subst h1a
        subst h1b
        obtain ⟨hpos, hmod⟩ := (saveCond_iff ss st').mp hs
        exact ⟨hpos, hmod, le_refl st', by simp, rfl⟩
      · rw [if_neg hs] at h1
        simp at h1
    · obtain ⟨hpos, hmod, hle, hlt, hep⟩ := ih (st + 1) (uM m) (uO o) st' c h2
      exact ⟨hpos, hmod, by omega, by simp only [List.length_cons]; omega, hep⟩

/-- Helper: the batch loop emits a progressive-save event at every step of
its range that satisfies the save condition. -/
lemma runBatches_exists {σ τ : Type} (ss : ℕ) (uM : σ → σ) (uO : τ → τ)
    (ep : ℕ) (ls : List ℝ) :
    ∀ (st : ℕ) (m : σ) (o : τ) (st' : ℕ),
      st ≤ st' → st' < st + ls.length → saveCond true false ss st' = true →
      ∃ ms os, TrEvent.prog st' (Ckpt.mk ep ms os) ∈
        (runBatches true false ss uM uO ep ls st m o).2.2.1 := by
  induction ls with
  | nil =>
    intro st m o st' hle hlt hs
    exfalso
    simp only [List.length_nil, Nat.add_zero] at hlt
    omega
  | cons l rest ih =>
    intro st m o st' hle hlt hs
    by_cases he : st' = st
    · subst he
      refine ⟨uM m, uO o, ?_⟩
      simp only [runBatches, Bool.false_eq_true, if_false]
      apply List.mem_append_left
      rw [if_pos hs]
      exact List.mem_singleton.mpr rfl
    · have h1 : st + 1 ≤ st' := by omega
      have h2 : st' < (st + 1) + rest.length := by
        simp only [List.length_cons] at hlt
        omega
      obtain ⟨ms, os, hm⟩ := ih (st + 1) (uM m) (uO o) st' h1 h2 hs
      refine ⟨ms, os, ?_⟩
      simp only [runBatches, Bool.false_eq_true, if_false]
      exact List.mem_append_right _ hm

/-- Helper: every progressive-save event of the epoch loop satisfies the save
condition and names an epoch and step actually reached. -/
lemma runEpochs_mem {σ τ : Type} (ss : ℕ) (uM : σ → σ) (uO : τ → τ)
    (losses : List (List ℝ)) :
    ∀ (ep : ℕ) (m : σ) (o : τ) (st' : ℕ) (c : Ckpt σ τ),
      TrEvent.prog st' c ∈ (runEpochs true false ss uM uO losses ep m o).2.2.1 →
      0 < st' ∧ st' % ss = 0 ∧ ep ≤ c.epoch ∧ c.epoch < ep + losses.length ∧
        st' < (losses.getD (c.epoch - ep) []).length := by
  induction losses with
  | nil => intro ep m o st' c h; simp [runEpochs] at h
  | cons ls rest ih =>
    intro ep m o st' c h
    simp only [runEpochs, Bool.false_eq_true, if_false] at h
    rcases List.mem_append.mp h with h1 | h2
    · obtain ⟨hpos, hmod, _, hlt, hep⟩ := runBatches_mem ss uM uO ep ls 0 m o st' c h1
      refine ⟨hpos, hmod, by omega, by simp only [List.length_cons]; omega, ?_⟩
      rw [hep, Nat.sub_self, List.getD_cons_zero]
      omega
    · obtain ⟨hpos, hmod, hge, hlt, hlen⟩ := ih (ep + 1) _ _ st' c h2
      refine ⟨hpos, hmod, by omega, by simp only [List.length_cons]; omega, ?_⟩
      have hk : c.epoch - ep = (c.epoch - (ep + 1)) + 1 := by omega
      rw [hk, List.getD_cons_succ]
      exact hlen

/-- Helper: the epoch loop emits a progressive-save event for every epoch in
range and every qualifying step of that epoch's batch range. -/
lemma runEpochs_exists {σ τ : Type} (ss : ℕ) (uM : σ → σ) (uO : τ → τ)
    (losses : List (List ℝ)) :
    ∀ (ep : ℕ) (m : σ) (o : τ) (e st' : ℕ),
      e < losses.length → 0 < st' → st' % ss = 0 →
      st' < (losses.getD e []).length →
      ∃ ms os, TrEvent.prog st' (Ckpt.mk (ep + e) ms os) ∈
        (runEpochs true false ss uM uO losses ep m o).2.2.1 := by
  induction losses with
  | nil => intro ep m o e st' he _ _ _; simp at he
  | cons ls rest ih =>
    intro ep m o e st' he hpos hmod hlen
    cases e with
    | zero =>
      rw [List.getD_cons_zero] at hlen
      obtain ⟨ms, os, hm⟩ := runBatches_exists ss uM uO ep ls 0 m o st'
        (by omega) (by omega) ((saveCond_iff ss st').mpr ⟨hpos, hmod⟩)
      refine ⟨ms, os, ?_⟩
      simp only [runEpochs, Bool.false_eq_true, if_false, Nat.add_zero]
      exact List.mem_append_left _ hm
    | succ e' =>
      rw [List.getD_cons_succ] at hlen
      obtain ⟨ms, os, hm⟩ := ih (ep + 1)
        (runBatches true false ss uM uO ep ls 0 m o).1
        (runBatches true false ss uM uO ep ls 0 m o).2.1 e' st'
        (by simp only [List.length_cons] at he; omega) hpos hmod hlen
      refine ⟨ms, os, ?_⟩
      have hk : ep + (e' + 1) = (ep + 1) + e' := by omega
      rw [hk]
      simp only [runEpochs, Bool.false_eq_true, if_false]
      exact List.mem_append_right _ hm

/-- Helper: for a nonempty epoch list, the epoch loop's loss history is the
input list of per-epoch losses and the final epoch index is the last one. -/
lemma runEpochs_tail {σ τ : Type} (ss : ℕ) (uM : σ → σ) (uO : τ → τ)
    (losses : List (List ℝ)) :
    ∀ (ep : ℕ) (m : σ) (o : τ), losses ≠ [] →
      (runEpochs true false ss uM uO losses ep m o).2.2.2.1 = losses ∧
      (runEpochs true false ss uM uO losses ep m o).2.2.2.2 =
        some (ep + losses.length - 1) := by
  induction losses with
  | nil => intro ep m o hne; exact absurd rfl hne
  | cons ls rest ih =>
    intro ep m o hne
    by_cases hr : rest = []
    · subst hr
      simp only [runEpochs, Bool.false_eq_true, if_false]
      rw [runBatches_losses]
      simp
    · obtain ⟨ih1, ih2⟩ := ih (ep + 1)
        (runBatches true false ss uM uO ep ls 0 m o).1
        (runBatches true false ss uM uO ep ls 0 m o).2.1 hr
      simp only [runEpochs, Bool.false_eq_true, if_false]
      rw [runBatches_losses, ih1, ih2]
      refine ⟨rfl, ?_⟩
      simp only [Option.getD_some, List.length_cons]
      congr 1
      have : rest.length ≠ 0 := by
        intro hc
        exact hr (List.length_eq_zero.mp hc)
      omega

/-- Claim C7: with progressive saves enabled and debug off, Trainer.train
writes a checkpoint (carrying the current epoch, model state and optimizer
state) exactly at the batch steps that are positive multiples of save_step
within each epoch, and after the last epoch it always writes a final
checkpoint together with the full per-epoch loss history. -/
theorem c7_checkpoint_schedule {σ τ : Type} (ss : ℕ) (uM : σ → σ) (uO : τ → τ)
    (losses : List (List ℝ)) (m : σ) (o : τ) (evs : List (TrEvent σ τ))
    (hrun : trainRun true false ss uM uO losses m o = some evs) :
    (∀ st c, TrEvent.prog st c ∈ evs →
      0 < st ∧ st % ss = 0 ∧ c.epoch < losses.length ∧
        st < (losses.getD c.epoch []).length) ∧
    (∀ e st, e < losses.length → 0 < st → st % ss = 0 →
      st < (losses.getD e []).length →
      ∃ ms os, TrEvent.prog st (Ckpt.mk e ms os) ∈ evs) ∧
    (∃ ms os, evs.getLast? =
      some (TrEvent.finSave (Ckpt.mk (losses.length - 1) ms os) losses)) := by
  have hne : losses ≠ [] := by
    intro hc
    subst hc
    unfold trainRun runEpochs at hrun
    simp at hrun
  obtain ⟨hhist, hlast⟩ := runEpochs_tail ss uM uO losses 0 m o hne
  unfold trainRun at hrun
  simp only [hlast, Nat.zero_add] at hrun
  have hevs : evs = (runEpochs true false ss uM uO losses 0 m o).2.2.1 ++
      [TrEvent.finSave (Ckpt.mk (losses.length - 1)
        (runEpochs true false ss uM uO losses 0 m o).1
        (runEpochs true false ss uM uO losses 0 m o).2.1)
        (runEpochs true false ss uM uO losses 0 m o).2.2.2.1] :=
    (Option.some.inj hrun).symm
  refine ⟨?_, ?_, ?_⟩
  · intro st c hmem
    rw [hevs] at hmem
    rcases List.mem_append.mp hmem with h1 | h2
    · obtain ⟨hpos, hmod, _, hlt, hlen⟩ := runEpochs_mem ss uM uO losses 0 m o st c h1
      exact ⟨hpos, hmod, by omega, by simpa using hlen⟩
    · rw [List.mem_singleton] at h2
      exact absurd h2 (by intro hc; cases hc)
  · intro e st he hpos hmod hlen
    obtain ⟨ms, os, hm⟩ := runEpochs_exists ss uM uO losses 0 m o e st he hpos hmod hlen
    refine ⟨ms, os, ?_⟩
    rw [hevs]
    exact List.mem_append_left _ (by simpa using hm)
  · refine ⟨(runEpochs true false ss uM uO losses 0 m o).1,
      (runEpochs true false ss uM uO losses 0 m o).2.1, ?_⟩
    rw [hevs, hhist]
    exact List.getLast?_concat _

/-- Witness for C7 at a concrete run: one epoch of three batches with
save_step 2 saves progressively at step 2. -/
theorem c7_witness :
    ∃ ms os : Unit,
      TrEvent.prog 2 (Ckpt.mk 0 ms os) ∈
        ([TrEvent.prog 2 (Ckpt.mk 0 () ()),
          TrEvent.finSave (Ckpt.mk 0 () ()) [[1, 2, 3]]] : List (TrEvent Unit Unit)) :=
  (c7_checkpoint_schedule 2 id id [[1, 2, 3]] () ()
      [TrEvent.prog 2 (Ckpt.mk 0 () ()),
        TrEvent.finSave (Ckpt.mk 0 () ()) [[1, 2, 3]]] rfl).2.1 0 2
    (by decide) (by decide) (by decide) (by decide)

end

